import Mathlib

/-!
# Verification of the request-parameter parsing core of pg_featureserv

Shallow embedding of `internal/service/param.go`: each Go function is
translated to an executable Lean definition.  Go's `(value, error)`
returns become `Except ApiError`; Go `nil` slices and maps are modelled
with `Option` where the nil/empty distinction is observable; Go maps are
modelled as association lists with first-match lookup (Go map keys are
unique).  Library functions from the Go standard library
(`strings.Split`, `strings.ToLower`, `strconv.Atoi`) are modelled
directly; `strconv.ParseFloat` is kept abstract as a parameter
`pf : String → Option α`, since no claim depends on floating-point
arithmetic, only on parse success and pass-through of the parsed values.

Constants of the `api` and `conf` packages (parameter names, order-by
direction tokens, paging limits) are not part of the given source tree;
they are modelled from the specification where needed, and the paging
configuration is passed as explicit arguments.
-/

set_option autoImplicit false

namespace Service

/-- Single error kind raised by the parsers, modelling
`fmt.Errorf(api.ErrMsgInvalidParameterValue, name, value)`. -/
inductive ApiError where
  | invalidParameterValue (name : String) (value : String)
  deriving Repr, DecidableEq

instance {ε β : Type} [DecidableEq ε] [DecidableEq β] : DecidableEq (Except ε β) :=
  fun a b =>
    match a, b with
    | .ok x, .ok y =>
      if h : x = y then .isTrue (by rw [h]) else .isFalse (by intro hc; cases hc; exact h rfl)
    | .error x, .error y =>
      if h : x = y then .isTrue (by rw [h]) else .isFalse (by intro hc; cases hc; exact h rfl)
    | .ok _, .error _ => .isFalse (by intro hc; cases hc)
    | .error _, .ok _ => .isFalse (by intro hc; cases hc)

/-- Modelled from the spec: recognized query parameter name `limit`. -/
def ParamLimit : String := "limit"

/-- Modelled from the spec: recognized query parameter name `offset`. -/
def ParamOffset : String := "offset"

/-- Modelled from the spec: recognized query parameter name `bbox`. -/
def ParamBbox : String := "bbox"

/-- Modelled from the spec: recognized query parameter name `properties`. -/
def ParamProperties : String := "properties"

/-- Modelled from the spec: recognized query parameter name `orderby`
(parameter names are lowercased by the argument normalizer). -/
def ParamOrderBy : String := "orderby"

/-- Modelled from the spec: recognized query parameter name `precision`. -/
def ParamPrecision : String := "precision"

/-- Modelled from the spec: recognized query parameter name `transform`. -/
def ParamTransform : String := "transform"

/-- Modelled from the spec: the order-by direction separator, as in the
spec example `orderby=name:d`. -/
def OrderByDirSep : Char := (':')

/-- Modelled from the spec: short form of the descending direction token,
as in the spec example `orderby=name:d`. -/
def OrderByDirD : String := "d"

/-- Modelled from the spec: short form of the ascending direction token
(the two direction tokens are the short forms of ascending/descending). -/
def OrderByDirA : String := "a"

/-- Modelled from the spec: `api.IsParameterReservedName` — the reserved
parameter names are the recognized query parameter names
limit, offset, bbox, properties, orderby, precision, transform. -/
def IsParameterReservedName (name : String) : Bool :=
  name = ParamLimit ∨ name = ParamOffset ∨ name = ParamBbox ∨
    name = ParamProperties ∨ name = ParamOrderBy ∨ name = ParamPrecision ∨
    name = ParamTransform

/-! ## Go string and map primitives -/

/-- `strings.Split` on a single-character separator (all separators used
by the source are single characters), over the character list. -/
def splitChars (sep : Char) : List Char → List (List Char)
  | [] => [[]]
  | c :: rest =>
    match splitChars sep rest with
    | [] => [[c]]
    | h :: t => if c = sep then [] :: h :: t else (c :: h) :: t

/-- `strings.Split s sep` for a single-character separator `sep`. -/
def strSplit (sep : Char) (s : String) : List String :=
  (splitChars sep s.data).map String.mk

/-- `strings.ToLower` (ASCII letters; no claim involves non-ASCII case
folding). -/
def strToLower (s : String) : String :=
  String.mk (s.data.map Char.toLower)

/-- `strings.HasPrefix s pre`. -/
def strHasPre (s : String) (pre : String) : Bool :=
  s.data.take pre.data.length = pre.data

/-- Accumulating decimal-digit parser underlying `strconv.Atoi`. -/
def parseDigits (acc : Nat) : List Char → Option Nat
  | [] => some acc
  | c :: rest =>
    if ('0') ≤ c ∧ c ≤ ('9') then
      parseDigits (acc * 10 + (c.toNat - 48)) rest
    else
      none

/-- `strconv.Atoi`: optional sign, then one or more ASCII decimal digits;
values outside the 64-bit `int` range are a range error (Go `int` is
64-bit on the supported platforms). -/
def Atoi (s : String) : Option Int :=
  match s.data with
  | [] => none
  | ('+') :: rest =>
    if rest = [] then none
    else
      match parseDigits 0 rest with
      | none => none
      | some n => if n ≤ 9223372036854775807 then some (n : Int) else none
  | ('-') :: rest =>
    if rest = [] then none
    else
      match parseDigits 0 rest with
      | none => none
      | some n => if n ≤ 9223372036854775808 then some (-(n : Int)) else none
  | l =>
    match parseDigits 0 l with
    | none => none
    | some n => if n ≤ 9223372036854775807 then some (n : Int) else none

/-- A Go `map[string]string`, as an association list; Go maps have unique
keys, so first-match lookup is the map lookup. -/
abbrev NameValMap := List (String × String)

/-- Go map lookup with presence flag: `v, ok := m[k]`. -/
def mapLookup (m : NameValMap) (k : String) : Option String :=
  match m with
  | [] => none
  | (k0, v0) :: rest => if k0 = k then some v0 else mapLookup rest k

/-- Go map indexing `m[k]`: the zero value `""` when the key is absent. -/
def mapGet (m : NameValMap) (k : String) : String :=
  Option.getD (mapLookup m k) ""

/-- Go map insert-or-overwrite `m[k] = v`. -/
def mapInsert (m : NameValMap) (k v : String) : NameValMap :=
  match m with
  | [] => [(k, v)]
  | (k0, v0) :: rest => if k0 = k then (k, v) :: rest else (k0, v0) :: mapInsert rest k v

/-! ## Data model (`internal/data`, `internal/api`) -/

/-- `data.Extent`: axis-aligned box; the coordinate type is abstract
(`float64` in Go) since no claim involves floating-point arithmetic. -/
structure Extent (α : Type) where
  minx : α
  miny : α
  maxx : α
  maxy : α
  deriving Repr, DecidableEq

/-- `data.Ordering`: one sort key. -/
structure Ordering where
  name : String
  isDesc : Bool
  deriving Repr, DecidableEq

/-- `data.TransformFunction`: resolved name plus raw argument strings. -/
structure TransformFunction where
  name : String
  arg : List String
  deriving Repr, DecidableEq

/-- `data.FilterCond`: one ad-hoc equality filter condition. -/
structure FilterCond where
  name : String
  value : String
  deriving Repr, DecidableEq

/-- `api.RequestParam`: the parsed request descriptor.  `properties` is
three-valued: `none` models the Go nil slice (parameter absent),
`some []` the present-but-empty list, `some l` the populated list. -/
structure RequestParam (α : Type) where
  limit : Int
  offset : Int
  precision : Int
  bbox : Option (Extent α)
  properties : Option (List String)
  orderBy : List Ordering
  transformFuns : List TransformFunction
  values : NameValMap
  deriving Repr, DecidableEq

/-- `data.QueryParam`: the assembled query descriptor.  `columns` is
`Option (List String)` because the Go field is a slice whose nil/empty
distinction is observable (claim C10). -/
structure QueryParam (α : Type) where
  limit : Int
  offset : Int
  bbox : Option (Extent α)
  orderBy : List Ordering
  precision : Int
  transformFuns : List TransformFunction
  columns : Option (List String)
  deriving Repr, DecidableEq

/-! ## The parsers (`internal/service/param.go`) -/

/-- `parseInt`: bounded-integer parser with default and clamping. -/
def parseInt (values : NameValMap) (key : String) (minVal maxVal defaultVal : Int) :
    Except ApiError Int :=
  let valStr := mapGet values key
  if valStr = "" then .ok defaultVal
  else
    match Atoi valStr with
    | none => .error (.invalidParameterValue key valStr)
    | some val =>
      let val := if val < minVal then minVal else val
      let val := if val > maxVal then maxVal else val
      .ok val

/-- `parseLimit`: the limit parser; the paging configuration
(`conf.Configuration.Paging.LimitDefault` / `.LimitMax`) is passed as
explicit arguments. -/
def parseLimit (limitDefault limitMax : Int) (values : NameValMap) :
    Except ApiError Int :=
  let val := mapGet values ParamLimit
  if val = "" then .ok limitDefault
  else
    match Atoi val with
    | none => .error (.invalidParameterValue ParamLimit val)
    | some limit =>
      if limit < 0 ∨ limit > limitMax then .ok limitMax else .ok limit

/-- `parseBbox`: exactly four comma-separated values, each parsed by the
abstract float parser `pf` (`strconv.ParseFloat`); a single error for any
failure, no range validation on success. -/
def parseBbox {α : Type} (pf : String → Option α) (values : NameValMap) :
    Except ApiError (Option (Extent α)) :=
  let val := mapGet values ParamBbox
  if val = "" then .ok none
  else
    match strSplit (',') val with
    | [s1, s2, s3, s4] =>
      match pf s1, pf s2, pf s3, pf s4 with
      | some minLon, some minLat, some maxLon, some maxLat =>
        .ok (some { minx := minLon, miny := minLat, maxx := maxLon, maxy := maxLat })
      | _, _, _, _ => .error (.invalidParameterValue ParamBbox val)
    | _ => .error (.invalidParameterValue ParamBbox val)

/-- `parseProperties`: three-valued result — `none` (Go nil) when the
parameter is absent, `some []` when present with empty value, the raw
comma-split names otherwise; never errors. -/
def parseProperties (values : NameValMap) : Except ApiError (Option (List String)) :=
  match mapLookup values ParamProperties with
  | none => .ok none
  | some val =>
    if val = "" then .ok (some [])
    else .ok (some (strSplit (',') val))

/-- `parseOrderByDir`: the direction token after the separator. -/
def parseOrderByDir (dir : String) : Except ApiError Bool :=
  if dir = OrderByDirD then .ok true
  else if dir = OrderByDirA then .ok false
  else .error (.invalidParameterValue ParamOrderBy dir)

/-- `parseOrderBy`: lowercase the value, split on the direction
separator; at most one `Ordering` entry is produced. -/
def parseOrderBy (values : NameValMap) : Except ApiError (List Ordering) :=
  let val := mapGet values ParamOrderBy
  if val = "" then .ok []
  else
    let valLow := strToLower val
    match strSplit OrderByDirSep valLow with
    | [] => .ok []
    | [name] => .ok [{ name := name, isDesc := false }]
    | name :: dirSpec :: _ =>
      match parseOrderByDir dirSpec with
      | .error e => .error e
      | .ok isDesc => .ok [{ name := name, isDesc := isDesc }]

/-- `normalizePropNames` helper `toNameSet`: the set of lowercased
request names (a Go `map[string]bool` used only for membership). -/
def toNameSet (strs : List String) : List String :=
  strs.map strToLower

/-- `normalizePropNames`: resolves the three-valued request property list
against the column catalog.  The result is `Option (List String)`
because the Go function can return a nil slice (`none`): the loop
accumulator `propNames` starts nil and stays nil when nothing matches. -/
def normalizePropNames (requestNames : Option (List String)) (colNames : List String) :
    Option (List String) :=
  match requestNames with
  | none => some colNames
  | some reqs =>
    if reqs = [] then some reqs
    else
      let nameSet := toNameSet reqs
      let propNames := colNames.filter (fun colName => nameSet.contains colName)
      if propNames = [] then none else some propNames

/-- `transformFunSep`: the function separator of the transform parameter. -/
def transformFunSep : Char := ('|')

/-- `transformParamSep`: the argument separator inside one function. -/
def transformParamSep : Char := (',')

/-- `functionPrefixST`: the fixed geometry-function name prefix. -/
def functionPrefixST : String := "st_"

/-- `initTransforms`: builds the transform-function whitelist, mapping
each lowercased name to its canonical form. -/
def initTransforms (funNames : List String) : NameValMap :=
  funNames.foldl (fun m name => mapInsert m (strToLower name) name) []

/-- `actualFunctionName`: resolve an input name against the whitelist
`wl` (the process-wide `transformFunctionWhitelist`, passed explicitly);
retries with the geometry prefix prepended, and returns `""` when the
name resolves neither way. -/
def actualFunctionName (wl : NameValMap) (name : String) : String :=
  let nameLow := strToLower name
  match mapLookup wl nameLow with
  | some actual => actual
  | none =>
    if ¬ strHasPre nameLow functionPrefixST then
      match mapLookup wl (functionPrefixST ++ nameLow) with
      | some actual => actual
      | none => ""
    else ""

/-- `parseTransformFun`: split one function definition into name and raw
argument strings. -/
def parseTransformFun (s : String) : TransformFunction :=
  let atoms := strSplit transformParamSep s
  { name := Option.getD (atoms.head?) "", arg := atoms.tail }

/-- The loop body of `parseTransform` over the split function
definitions: resolve each name, failing fast on the first unresolvable
one, keeping input order. -/
def parseTransformList (wl : NameValMap) : List String → Except ApiError (List TransformFunction)
  | [] => .ok []
  | d :: rest =>
    let tf := parseTransformFun d
    let actualName := actualFunctionName wl tf.name
    if actualName = "" then
      .error (.invalidParameterValue ParamTransform tf.name)
    else
      match parseTransformList wl rest with
      | .error e => .error e
      | .ok l => .ok ({ tf with name := actualName } :: l)

/-- `parseTransform`: split the transform value into function definitions
and resolve each against the whitelist. -/
def parseTransform (wl : NameValMap) (values : NameValMap) :
    Except ApiError (List TransformFunction) :=
  let val := mapGet values ParamTransform
  if val = "" then .ok []
  else parseTransformList wl (strSplit transformFunSep val)

/-- `parseFilter`: one `FilterCond` per raw parameter that is not a
reserved name and matches a known column; everything else is silently
skipped.  (Go map iteration order is unspecified; the list order here is
the association-list order, and no claim depends on it.) -/
def parseFilter (paramMap : NameValMap) (colNameMap : NameValMap) : List FilterCond :=
  paramMap.filterMap (fun p =>
    if IsParameterReservedName p.1 then none
    else if (mapLookup colNameMap p.1).isSome then some { name := p.1, value := p.2 }
    else none)

/-- `createQueryParams`: assemble the final query descriptor, resolving
the requested properties against the column catalog. -/
def createQueryParams {α : Type} (requestParam : RequestParam α) (colNames : List String) :
    QueryParam α :=
  { limit := requestParam.limit
    offset := requestParam.offset
    bbox := requestParam.bbox
    orderBy := requestParam.orderBy
    precision := requestParam.precision
    transformFuns := requestParam.transformFuns
    columns := normalizePropNames requestParam.properties colNames }

/-- `parseRequestParams`: the full parameter parse, checking each parser
in source order and aborting on the first error (the Go multi-return
`(param, err)` convention is embedded as `Except`: the error branch
carries no `RequestParam`). -/
def parseRequestParams {α : Type} (limitDefault limitMax : Int)
    (pf : String → Option α) (wl : NameValMap) (values : NameValMap) :
    Except ApiError (RequestParam α) :=
  match parseLimit limitDefault limitMax values with
  | .error e => .error e
  | .ok limit =>
  match parseInt values ParamOffset 0 limitMax 0 with
  | .error e => .error e
  | .ok offset =>
  match parseBbox pf values with
  | .error e => .error e
  | .ok bbox =>
  match parseProperties values with
  | .error e => .error e
  | .ok props =>
  match parseOrderBy values with
  | .error e => .error e
  | .ok orderBy =>
  match parseInt values ParamPrecision 0 20 (-1) with
  | .error e => .error e
  | .ok precision =>
  match parseTransform wl values with
  | .error e => .error e
  | .ok transformFuns =>
    .ok { limit := limit, offset := offset, precision := precision, bbox := bbox,
          properties := props, orderBy := orderBy, transformFuns := transformFuns,
          values := values }

/-- Definition following the words of claim C1, for the refinement
comparison: "a non-empty sequence yields exactly the subsequence of
catalog names (in catalog order) that some requested name matches
case-insensitively" — a case-insensitive match of two strings compares
their lowercasings. -/
def claimedNormalizePropNames (requestNames : Option (List String)) (colNames : List String) :
    List String :=
  match requestNames with
  | none => colNames
  | some reqs =>
    colNames.filter (fun c => reqs.any (fun r => strToLower r = strToLower c))

/-- The error component of a parser result (specification side, for
stating the fail-fast property). -/
def errOf {β : Type} (r : Except ApiError β) : Option ApiError :=
  match r with
  | .error e => some e
  | .ok _ => none

/-- The first error in a sequence of optional parser errors
(specification side, for stating the fail-fast property). -/
def firstErr : List (Option ApiError) → Option ApiError
  | [] => none
  | some e :: _ => some e
  | none :: rest => firstErr rest

/-! ## Helper lemmas -/

theorem toNameSet_contains (reqs : List String) (c : String) :
    ((toNameSet reqs).contains c) = reqs.any (fun r => strToLower r = c) := by
  induction reqs with
  | nil => rfl
  | cons r rs ih =>
    simp only [toNameSet, List.map_cons, List.contains_cons, List.any_cons] at *
    rw [ih]
    congr 1
    rw [Bool.eq_iff_iff]
    simp only [beq_iff_eq, decide_eq_true_eq]
    exact eq_comm

theorem parseRequestParams_ok_iff {α : Type} (limitDefault limitMax : Int)
    (pf : String → Option α) (wl values : NameValMap) (p : RequestParam α) :
    parseRequestParams limitDefault limitMax pf wl values = .ok p ↔
      (parseLimit limitDefault limitMax values = .ok p.limit ∧
        parseInt values ParamOffset 0 limitMax 0 = .ok p.offset ∧
        parseBbox pf values = .ok p.bbox ∧
        parseProperties values = .ok p.properties ∧
        parseOrderBy values = .ok p.orderBy ∧
        parseInt values ParamPrecision 0 20 (-1) = .ok p.precision ∧
        parseTransform wl values = .ok p.transformFuns ∧
        p.values = values) := by
  obtain ⟨pl, po, ppr, pb, pprop, pob, ptf, pv⟩ := p
  unfold parseRequestParams
  cases h1 : parseLimit limitDefault limitMax values with
  | error e => simp [h1]
  | ok v1 =>
    cases h2 : parseInt values ParamOffset 0 limitMax 0 with
    | error e => simp [h2]
    | ok v2 =>
      cases h3 : parseBbox pf values with
      | error e => simp [h3]
      | ok v3 =>
        cases h4 : parseProperties values with
        | error e => simp [h4]
        | ok v4 =>
          cases h5 : parseOrderBy values with
          | error e => simp [h5]
          | ok v5 =>
            cases h6 : parseInt values ParamPrecision 0 20 (-1) with
            | error e => simp [h6]
            | ok v6 =>
              cases h7 : parseTransform wl values with
              | error e => simp [h7]
              | ok v7 =>
                simp only [Except.ok.injEq, RequestParam.mk.injEq]
                constructor
                · rintro ⟨a, b, c, d, f, g, h, i⟩
                  exact ⟨by rw [← a], by rw [← b], by rw [← d], by rw [← f],
                    by rw [← g], by rw [← c], by rw [← h], i.symm⟩
                · rintro ⟨a, b, c, d, f, g, h, i⟩
                  cases a; cases b; cases c; cases d; cases f; cases g; cases h
                  exact ⟨rfl, rfl, rfl, rfl, rfl, rfl, rfl, i.symm⟩

theorem parseTransformList_ok (wl : NameValMap) (l : List String)
    (h : ∀ d ∈ l, actualFunctionName wl (parseTransformFun d).name ≠ "") :
    parseTransformList wl l = .ok (l.map (fun d =>
      { name := actualFunctionName wl (parseTransformFun d).name,
        arg := (parseTransformFun d).arg })) := by
  induction l with
  | nil => rfl
  | cons d rest ih =>
    have hd := h d (by simp)
    have hrest := ih (fun d2 hd2 => h d2 (by simp [hd2]))
    simp [parseTransformList, hd, hrest]

theorem parseTransformList_err (wl : NameValMap) (pre : List String) (d : String)
    (post : List String)
    (hpre : ∀ d2 ∈ pre, actualFunctionName wl (parseTransformFun d2).name ≠ "")
    (hd : actualFunctionName wl (parseTransformFun d).name = "") :
    parseTransformList wl (pre ++ d :: post)
      = .error (.invalidParameterValue ParamTransform (parseTransformFun d).name) := by
  induction pre with
  | nil => simp [parseTransformList, hd]
  | cons p rest ih =>
    have hp := hpre p (by simp)
    have hrec := ih (fun d2 h2 => hpre d2 (by simp [h2]))
    simp [parseTransformList, hp, hrec]

/-! ## Claim theorems -/

/-- Claim C3: the limit parser returns the configured default when the
limit parameter is absent or its value is empty; fails with
InvalidParameterValue exactly when the value is present but not
parseable as an integer; every parseable value that is negative or
exceeds the configured maximum yields the configured maximum; and every
parseable value in [0, max] is returned unchanged. -/
theorem parseLimit_spec (limitDefault limitMax : Int) (values : NameValMap) :
    (mapGet values ParamLimit = "" →
      parseLimit limitDefault limitMax values = .ok limitDefault)
    ∧ (∀ s, mapGet values ParamLimit = s → s ≠ "" →
        (parseLimit limitDefault limitMax values
            = .error (.invalidParameterValue ParamLimit s) ↔ Atoi s = none))
    ∧ (∀ s v, mapGet values ParamLimit = s → s ≠ "" → Atoi s = some v →
        ((v < 0 ∨ v > limitMax) →
          parseLimit limitDefault limitMax values = .ok limitMax)
        ∧ (0 ≤ v → v ≤ limitMax →
          parseLimit limitDefault limitMax values = .ok v)) := by
  refine ⟨?_, ?_, ?_⟩
  · intro h
    simp [parseLimit, h]
  · intro s hs hne
    constructor
    · intro herr
      cases ha : Atoi s with
      | none => rfl
      | some v =>
        simp [parseLimit, hs, hne, ha] at herr
        split at herr <;> simp at herr
    · intro ha
      simp [parseLimit, hs, hne, ha]
  · intro s v hs hne ha
    constructor
    · intro hor
      simp [parseLimit, hs, hne, ha, hor]
    · intro h0 hm
      have hor : ¬(v < 0 ∨ v > limitMax) := by omega
      simp [parseLimit, hs, hne, ha, hor]

/-- Witness for claim C3 at a concrete input: `limit=-5` with maximum
1000 and default 10 returns the configured maximum. -/
theorem parseLimit_spec_witness :
    parseLimit 10 1000 ([(ParamLimit, "-5")]) = .ok 1000 :=
  ((parseLimit_spec 10 1000 ([(ParamLimit, "-5")])).2.2 ("-5") (-5) rfl
      (by decide) (by decide)).1 (by decide)

/-- Claim C6: the properties parser never errors and preserves the
three-state distinction: absent parameter yields Go nil (`none`),
present-but-empty yields the empty sequence (`some []`), and a
non-empty value yields the comma-split raw names, with no deduplication
or case normalization. -/
theorem parseProperties_spec (values : NameValMap) :
    (mapLookup values ParamProperties = none → parseProperties values = .ok none)
    ∧ (mapLookup values ParamProperties = some "" →
        parseProperties values = .ok (some []))
    ∧ (∀ v, mapLookup values ParamProperties = some v → v ≠ "" →
        parseProperties values = .ok (some (strSplit (',') v)))
    ∧ (∃ r, parseProperties values = .ok r) := by
  refine ⟨?_, ?_, ?_, ?_⟩
  · intro h
    simp [parseProperties, h]
  · intro h
    simp [parseProperties, h]
  · intro v h hne
    simp [parseProperties, h, hne]
  · cases h : mapLookup values ParamProperties with
    | none => exact ⟨none, by simp [parseProperties, h]⟩
    | some v =>
      by_cases hne : v = ""
      · exact ⟨some [], by simp [parseProperties, h, hne]⟩
      · exact ⟨some (strSplit (',') v), by simp [parseProperties, h, hne]⟩

/-- Witness for claim C6 at a concrete input: `properties=Name,FOO`
yields the raw split names, case preserved. -/
theorem parseProperties_spec_witness :
    parseProperties ([(ParamProperties, "Name,FOO")])
      = .ok (some (["Name", "FOO"])) :=
  (((parseProperties_spec ([(ParamProperties, "Name,FOO")])).2.2.1
      ("Name,FOO") rfl (by decide))).trans (by decide)

/-- Claim C7: the bounded-integer parser returns the default when the key
is absent or its value is empty; fails with InvalidParameterValue(key,
value) exactly when the value is present but unparseable; every
parseable value is clamped into [min, max] with no error; and the full
parse instantiates it for offset with range [0, configured paging
maximum] and default 0, and for precision with range [0, 20] and
default -1. -/
theorem parseInt_spec (values : NameValMap) (key : String)
    (minVal maxVal defaultVal : Int) (hrange : minVal ≤ maxVal) :
    (mapGet values key = "" →
      parseInt values key minVal maxVal defaultVal = .ok defaultVal)
    ∧ (∀ s, mapGet values key = s → s ≠ "" →
        (parseInt values key minVal maxVal defaultVal
            = .error (.invalidParameterValue key s) ↔ Atoi s = none))
    ∧ (∀ s v, mapGet values key = s → s ≠ "" → Atoi s = some v →
        parseInt values key minVal maxVal defaultVal
            = .ok (max minVal (min maxVal v)))
    ∧ (∀ {α : Type} (pf : String → Option α) (wl : NameValMap)
        (limitDefault limitMax : Int) (p : RequestParam α),
        parseRequestParams limitDefault limitMax pf wl values = .ok p →
          parseInt values ParamOffset 0 limitMax 0 = .ok p.offset
          ∧ parseInt values ParamPrecision 0 20 (-1) = .ok p.precision) := by
  refine ⟨?_, ?_, ?_, ?_⟩
  · intro h
    simp [parseInt, h]
  · intro s hs hne
    constructor
    · intro herr
      cases ha : Atoi s with
      | none => rfl
      | some v =>
        simp [parseInt, hs, hne, ha] at herr
    · intro ha
      simp [parseInt, hs, hne, ha]
  · intro s v hs hne ha
    simp [parseInt, hs, hne, ha]
    split_ifs <;> omega
  · intro α pf wl limitDefault limitMax p hp
    have h := (parseRequestParams_ok_iff limitDefault limitMax pf wl values p).mp hp
    exact ⟨h.2.1, h.2.2.2.2.2.1⟩

/-- Witness for claim C7 at a concrete input: `offset=-3` with range
[0, 1000] and default 0 clamps to the minimum 0. -/
theorem parseInt_spec_witness :
    parseInt ([(ParamOffset, "-3")]) ParamOffset 0 1000 0 = .ok 0 :=
  ((parseInt_spec ([(ParamOffset, "-3")]) ParamOffset 0 1000 0
      (by decide)).2.2.1 ("-3") (-3) rfl (by decide) (by decide)).trans (by decide)

/-- Claim C8: the bounding-box parser returns Go nil with no error when
the bbox parameter is absent; fails with a single
InvalidParameterValue(bbox, rawValue) exactly when the comma-split value
does not have four elements or any element fails float parsing; and on
success returns the Extent built from the four parsed numbers with no
min/max or range validation. -/
theorem parseBbox_spec {α : Type} (pf : String → Option α) (values : NameValMap) :
    (mapGet values ParamBbox = "" → parseBbox pf values = .ok none)
    ∧ (∀ val, mapGet values ParamBbox = val → val ≠ "" →
        ((strSplit (',') val).length ≠ 4 →
          parseBbox pf values = .error (.invalidParameterValue ParamBbox val))
        ∧ (∀ s1 s2 s3 s4, strSplit (',') val = [s1, s2, s3, s4] →
            ((pf s1 = none ∨ pf s2 = none ∨ pf s3 = none ∨ pf s4 = none) →
              parseBbox pf values = .error (.invalidParameterValue ParamBbox val))
            ∧ (∀ x1 x2 x3 x4, pf s1 = some x1 → pf s2 = some x2 →
                pf s3 = some x3 → pf s4 = some x4 →
                parseBbox pf values =
                  .ok (some { minx := x1, miny := x2, maxx := x3, maxy := x4 })))) := by
  constructor
  · intro h
    simp [parseBbox, h]
  · intro val hv hne
    constructor
    · intro hlen
      rcases hsp : strSplit (',') val with _ | ⟨a, _ | ⟨b, _ | ⟨c, _ | ⟨d, _ | ⟨e, rest⟩⟩⟩⟩⟩
      · simp [parseBbox, hv, hne, hsp]
      · simp [parseBbox, hv, hne, hsp]
      · simp [parseBbox, hv, hne, hsp]
      · simp [parseBbox, hv, hne, hsp]
      · exact absurd (by rw [hsp]; rfl) hlen
      · simp [parseBbox, hv, hne, hsp]
    · intro s1 s2 s3 s4 hsp
      constructor
      · rintro (h | h | h | h) <;>
          · cases h1 : pf s1 <;> cases h2 : pf s2 <;> cases h3 : pf s3 <;>
              cases h4 : pf s4 <;>
              simp_all [parseBbox, hv, hne, hsp]
      · intro x1 x2 x3 x4 h1 h2 h3 h4
        simp [parseBbox, hv, hne, hsp, h1, h2, h3, h4]

/-- Witness for claim C8 at a concrete input: `bbox=1,2,3,4` parses into
the extent (1, 2, 3, 4). -/
theorem parseBbox_spec_witness :
    parseBbox Atoi ([(ParamBbox, "1,2,3,4")])
      = .ok (some { minx := 1, miny := 2, maxx := 3, maxy := 4 }) :=
  (((parseBbox_spec Atoi ([(ParamBbox, "1,2,3,4")])).2 ("1,2,3,4") rfl
      (by decide)).2 ("1") ("2") ("3") ("4") (by decide)).2 1 2 3 4
    (by decide) (by decide) (by decide) (by decide)

/-- Claim C9: the orderBy parser returns the empty sequence when the
parameter is absent; otherwise it lowercases the whole value and splits
on the direction separator, the first portion being the column name;
with a second portion present it must equal one of the two direction
tokens or the parse fails with InvalidParameterValue(orderBy,
direction); no separator means ascending; the result always has at most
one Ordering entry. -/
theorem parseOrderBy_spec (values : NameValMap) :
    (mapGet values ParamOrderBy = "" → parseOrderBy values = .ok [])
    ∧ (∀ val, mapGet values ParamOrderBy = val → val ≠ "" →
        (∀ n0, strSplit OrderByDirSep (strToLower val) = [n0] →
          parseOrderBy values = .ok ([{ name := n0, isDesc := false }]))
        ∧ (∀ n0 d0 rest, strSplit OrderByDirSep (strToLower val) = n0 :: d0 :: rest →
            (d0 = OrderByDirD →
              parseOrderBy values = .ok ([{ name := n0, isDesc := true }]))
            ∧ (d0 = OrderByDirA →
              parseOrderBy values = .ok ([{ name := n0, isDesc := false }]))
            ∧ (d0 ≠ OrderByDirD → d0 ≠ OrderByDirA →
              parseOrderBy values = .error (.invalidParameterValue ParamOrderBy d0))))
    ∧ (∀ l, parseOrderBy values = .ok l → l.length ≤ 1) := by
  refine ⟨?_, ?_, ?_⟩
  · intro h
    simp [parseOrderBy, h]
  · intro val hv hne
    constructor
    · intro n0 hsp
      simp [parseOrderBy, hv, hne, hsp]
    · intro n0 d0 rest hsp
      refine ⟨?_, ?_, ?_⟩
      · intro hd
        simp [parseOrderBy, parseOrderByDir, hv, hne, hsp, hd]
      · intro hd
        have hda : OrderByDirA ≠ OrderByDirD := by decide
        simp [parseOrderBy, parseOrderByDir, hv, hne, hsp, hd, hda]
      · intro hd ha
        simp [parseOrderBy, parseOrderByDir, hv, hne, hsp, hd, ha]
  · intro l hl
    simp only [parseOrderBy] at hl
    split at hl
    · cases hl
      simp
    · split at hl
      · cases hl
        simp
      · cases hl
        simp
      · split at hl
        · cases hl
        · cases hl
          simp

/-- Witness for claim C9 at a concrete input: `orderby=Name:D` lowercases
to `name:d` and yields one descending ordering on `name`. -/
theorem parseOrderBy_spec_witness :
    parseOrderBy ([(ParamOrderBy, "Name:D")])
      = .ok ([{ name := "name", isDesc := true }]) :=
  (((parseOrderBy_spec ([(ParamOrderBy, "Name:D")])).2.1 ("Name:D") rfl
      (by decide)).2 ("name") ("d") [] (by decide)).1 (by decide)

/-- Counterexample to claim C1 as stated: with catalog `["A"]` and
requested properties `["A"]` the requested name matches the catalog name
case-insensitively (they are even equal), so the claim requires result
`["A"]`; the code lowercases only the requested names and compares them
verbatim against the catalog, so the catalog name `A` is not found in
the lowered set and the result is empty (the Go nil slice). -/
theorem normalizePropNames_claim_cex :
    claimedNormalizePropNames (some (["A"])) (["A"]) = (["A"])
    ∧ normalizePropNames (some (["A"])) (["A"]) = none
    ∧ Option.getD (normalizePropNames (some (["A"])) (["A"])) [] ≠
        claimedNormalizePropNames (some (["A"])) (["A"]) := by decide

/-- Claim C1 (amended): the assembler resolves the three-valued
properties field as: nil (absent) yields the full catalog column list in
catalog order; an empty sequence yields an empty result; a non-empty
sequence yields exactly the subsequence of catalog names (in catalog
order, not request order) that equal the lowercasing of some requested
name — the match is case-insensitive in the requested name only, the
catalog name being compared verbatim — with every unmatched requested
name silently dropped and no error ever produced. -/
theorem normalizePropNames_spec (reqs cols : List String) :
    normalizePropNames none cols = some cols
    ∧ normalizePropNames (some []) cols = some []
    ∧ (reqs ≠ [] →
        Option.getD (normalizePropNames (some reqs) cols) [] =
          cols.filter (fun c => reqs.any (fun r => strToLower r = c))) := by
  refine ⟨rfl, rfl, ?_⟩
  intro hne
  have hf : cols.filter (fun c => (toNameSet reqs).contains c)
      = cols.filter (fun c => reqs.any (fun r => strToLower r = c)) := by
    apply List.filter_congr
    intro c _
    exact toNameSet_contains reqs c
  have h1 : normalizePropNames (some reqs) cols
      = (if cols.filter (fun c => (toNameSet reqs).contains c) = [] then none
         else some (cols.filter (fun c => (toNameSet reqs).contains c))) := by
    simp [normalizePropNames, hne]
  rw [h1, hf]
  split
  · next hc => rw [hc]; rfl
  · rfl

/-- Witness for claim C1 (amended) at the spec's own example:
`properties=Name,FOO` with catalog `[name, bar]` yields `[name]`. -/
theorem normalizePropNames_spec_witness :
    Option.getD (normalizePropNames (some (["Name", "FOO"])) (["name", "bar"])) []
      = (["name"]) :=
  ((normalizePropNames_spec (["Name", "FOO"]) (["name", "bar"])).2.2
      (by decide)).trans (by decide)

/-- Claim C10: for every non-empty requested-properties list in which no
requested name matches any catalog column, the normalization returns the
Go nil slice (`none`) — the representation the three-valued properties
field uses for "absent, use all columns" — rather than the empty list,
and the assembled Columns field carries that nil. -/
theorem normalizePropNames_unmatched_nil (reqs cols : List String)
    (rp : RequestParam Int) (hne : reqs ≠ [])
    (hnm : ∀ c ∈ cols, reqs.any (fun r => strToLower r = c) = false)
    (hp : rp.properties = some reqs) :
    normalizePropNames (some reqs) cols = none
    ∧ normalizePropNames (some reqs) cols ≠ some []
    ∧ (createQueryParams rp cols).columns = none := by
  have hchar : normalizePropNames (some reqs) cols
      = (if cols.filter (fun c => (toNameSet reqs).contains c) = [] then none
         else some (cols.filter (fun c => (toNameSet reqs).contains c))) := by
    simp [normalizePropNames, hne]
  have hf : cols.filter (fun c => (toNameSet reqs).contains c) = [] := by
    rw [List.filter_eq_nil_iff]
    intro a ha hcon
    have hcon2 : (toNameSet reqs).contains a = true := by simpa using hcon
    rw [toNameSet_contains, hnm a ha] at hcon2
    cases hcon2
  have h1 : normalizePropNames (some reqs) cols = none := by
    rw [hchar, if_pos hf]
  refine ⟨h1, by simp [h1], ?_⟩
  simp [createQueryParams, hp, h1]

/-- Witness for claim C10 at a concrete input: requested `["foo"]`
against catalog `["name"]` yields nil columns. -/
theorem normalizePropNames_unmatched_nil_witness :
    normalizePropNames (some (["foo"])) (["name"]) = none :=
  (normalizePropNames_unmatched_nil (["foo"]) (["name"])
      { limit := 0, offset := 0, precision := 0, bbox := none,
        properties := some (["foo"]), orderBy := [], transformFuns := [],
        values := [] } (by decide) (by decide) rfl).1

/-- Claim C5: the filter extractor produces exactly one FilterCondition
(name, value) for each raw parameter whose name is not a reserved
parameter name and matches a known column, and produces nothing — with
no error — for every other ad-hoc parameter. -/
theorem parseFilter_spec (m cols : NameValMap) (n v : String)
    (hnd : (m.map Prod.fst).Nodup) :
    (({ name := n, value := v } : FilterCond) ∈ parseFilter m cols ↔
      ((n, v) ∈ m ∧ IsParameterReservedName n = false
        ∧ (mapLookup cols n).isSome = true))
    ∧ (((n, v) ∈ m ∧ IsParameterReservedName n = false
        ∧ (mapLookup cols n).isSome = true) →
      (parseFilter m cols).count ({ name := n, value := v }) = 1) := by
  have hmem : ({ name := n, value := v } : FilterCond) ∈ parseFilter m cols ↔
      ((n, v) ∈ m ∧ IsParameterReservedName n = false
        ∧ (mapLookup cols n).isSome = true) := by
    rw [parseFilter, List.mem_filterMap]
    constructor
    · rintro ⟨⟨p1, p2⟩, hp, hf⟩
      by_cases hr : IsParameterReservedName p1
      · simp [hr] at hf
      · by_cases hl : (mapLookup cols p1).isSome
        · simp [hr, hl] at hf
          obtain ⟨hf1, hf2⟩ := hf
          subst hf1
          subst hf2
          exact ⟨hp, by simpa using hr, hl⟩
        · simp [hr, hl] at hf
    · rintro ⟨hm, hr, hl⟩
      exact ⟨(n, v), hm, by simp [hr, hl]⟩
  have hinj : ∀ (p : String × String) (c : FilterCond),
      (if IsParameterReservedName p.1 then none
       else if (mapLookup cols p.1).isSome then
         some ({ name := p.1, value := p.2 } : FilterCond)
       else none) = some c → p = (c.name, c.value) := by
    rintro ⟨p1, p2⟩ c h
    by_cases hr : IsParameterReservedName p1
    · simp [hr] at h
    · by_cases hl : (mapLookup cols p1).isSome
      · simp [hr, hl] at h
        subst h
        rfl
      · simp [hr, hl] at h
  have hnodup : (parseFilter m cols).Nodup := by
    refine List.Nodup.filterMap ?_ (List.Nodup.of_map _ hnd)
    intro a a' b hb hb'
    have e1 := hinj a b (by simpa using hb)
    have e2 := hinj a' b (by simpa using hb')
    rw [e1, e2]
  exact ⟨hmem, fun hq => List.count_eq_one_of_mem hnodup (hmem.mpr hq)⟩

/-- Witness for claim C5 at the spec's example: `status=active` with
column `status` produces exactly the filter (status, active), while
`foo=bar` produces nothing. -/
theorem parseFilter_spec_witness :
    ({ name := "status", value := "active" } : FilterCond) ∈
        parseFilter ([("status", "active"), ("foo", "bar")]) ([("status", "status")])
    ∧ (parseFilter ([("status", "active"), ("foo", "bar")])
        ([("status", "status")])).count ({ name := "status", value := "active" }) = 1 := by
  have h := parseFilter_spec ([("status", "active"), ("foo", "bar")])
    ([("status", "status")]) ("status") ("active") (by decide)
  exact ⟨h.1.mpr (by decide), h.2 (by decide)⟩

/-- Claim C4: the transform parser splits the value into function
definitions and resolves each name against the case-insensitive
whitelist, retrying with the geometry prefix prepended when the name
lacks that prefix and did not match; the first unresolvable function
aborts the whole parameter with InvalidParameterValue(transform, name)
and no partial list is returned; on success the resolved functions
appear in input order, each with the canonical whitelist name and its
raw argument strings verbatim. -/
theorem parseTransform_spec (wl values : NameValMap) :
    (∀ val, mapGet values ParamTransform = val → val ≠ "" →
      (∀ pre d post, strSplit transformFunSep val = pre ++ d :: post →
        (∀ d2 ∈ pre, actualFunctionName wl (parseTransformFun d2).name ≠ "") →
        actualFunctionName wl (parseTransformFun d).name = "" →
        parseTransform wl values
          = .error (.invalidParameterValue ParamTransform (parseTransformFun d).name))
      ∧ ((∀ d ∈ strSplit transformFunSep val,
            actualFunctionName wl (parseTransformFun d).name ≠ "") →
        parseTransform wl values = .ok ((strSplit transformFunSep val).map (fun d =>
          { name := actualFunctionName wl (parseTransformFun d).name,
            arg := (parseTransformFun d).arg }))))
    ∧ (∀ n a, mapLookup wl (strToLower n) = some a → actualFunctionName wl n = a)
    ∧ (∀ n, mapLookup wl (strToLower n) = none →
        strHasPre (strToLower n) functionPrefixST = false →
        actualFunctionName wl n
          = Option.getD (mapLookup wl (functionPrefixST ++ strToLower n)) "") := by
  refine ⟨?_, ?_, ?_⟩
  · intro val hv hne
    have hunf : parseTransform wl values
        = parseTransformList wl (strSplit transformFunSep val) := by
      simp [parseTransform, hv, hne]
    constructor
    · intro pre d post hsp hpre hd
      rw [hunf, hsp]
      exact parseTransformList_err wl pre d post hpre hd
    · intro hall
      rw [hunf]
      exact parseTransformList_ok wl (strSplit transformFunSep val) hall
  · intro n a h
    simp [actualFunctionName, h]
  · intro n h hpre
    cases hl : mapLookup wl (functionPrefixST ++ strToLower n) with
    | none => simp [actualFunctionName, h, hpre, hl]
    | some a => simp [actualFunctionName, h, hpre, hl]

/-- Witness for claim C4 at the spec's example: with whitelist
`[ST_Buffer]`, `transform=buffer,10` resolves (via the prefix retry and
case-insensitive match) to ST_Buffer with raw argument `10`. -/
theorem parseTransform_spec_witness :
    parseTransform (initTransforms (["ST_Buffer"])) ([(ParamTransform, "buffer,10")])
      = .ok ([{ name := "ST_Buffer", arg := ["10"] }]) :=
  (((parseTransform_spec (initTransforms (["ST_Buffer"]))
      ([(ParamTransform, "buffer,10")])).1 ("buffer,10") rfl
      (by decide)).2 (by decide)).trans (by decide)

/-- Claim C2: parsing the full parameter set aborts at the first error
among the individual parsers (in source order: limit, offset, bbox,
properties, orderBy, precision, transform); the error is surfaced to the
caller and no RequestParam value accompanies it. -/
theorem parseRequestParams_fail_fast {α : Type} (limitDefault limitMax : Int)
    (pf : String → Option α) (wl values : NameValMap) :
    (∀ e, parseRequestParams limitDefault limitMax pf wl values = .error e ↔
      firstErr ([errOf (parseLimit limitDefault limitMax values),
        errOf (parseInt values ParamOffset 0 limitMax 0),
        errOf (parseBbox pf values),
        errOf (parseProperties values),
        errOf (parseOrderBy values),
        errOf (parseInt values ParamPrecision 0 20 (-1)),
        errOf (parseTransform wl values)]) = some e)
    ∧ (firstErr ([errOf (parseLimit limitDefault limitMax values),
        errOf (parseInt values ParamOffset 0 limitMax 0),
        errOf (parseBbox pf values),
        errOf (parseProperties values),
        errOf (parseOrderBy values),
        errOf (parseInt values ParamPrecision 0 20 (-1)),
        errOf (parseTransform wl values)]) = none ↔
      ∃ p, parseRequestParams limitDefault limitMax pf wl values = .ok p)
    ∧ (∀ e p, parseRequestParams limitDefault limitMax pf wl values = .error e →
        parseRequestParams limitDefault limitMax pf wl values ≠ .ok p) := by
  cases h1 : parseLimit limitDefault limitMax values with
  | error e1 => simp [parseRequestParams, errOf, firstErr, h1]
  | ok v1 =>
    cases h2 : parseInt values ParamOffset 0 limitMax 0 with
    | error e2 => simp [parseRequestParams, errOf, firstErr, h1, h2]
    | ok v2 =>
      cases h3 : parseBbox pf values with
      | error e3 => simp [parseRequestParams, errOf, firstErr, h1, h2, h3]
      | ok v3 =>
        cases h4 : parseProperties values with
        | error e4 => simp [parseRequestParams, errOf, firstErr, h1, h2, h3, h4]
        | ok v4 =>
          cases h5 : parseOrderBy values with
          | error e5 => simp [parseRequestParams, errOf, firstErr, h1, h2, h3, h4, h5]
          | ok v5 =>
            cases h6 : parseInt values ParamPrecision 0 20 (-1) with
            | error e6 => simp [parseRequestParams, errOf, firstErr, h1, h2, h3, h4, h5, h6]
            | ok v6 =>
              cases h7 : parseTransform wl values with
              | error e7 => simp [parseRequestParams, errOf, firstErr, h1, h2, h3, h4, h5, h6, h7]
              | ok v7 => simp [parseRequestParams, errOf, firstErr, h1, h2, h3, h4, h5, h6, h7]

/-- Witness for claim C2 at a concrete input where both the bbox and the
orderBy values are malformed: the parse aborts with the bbox error, the
first in source order. -/
theorem parseRequestParams_fail_fast_witness :
    parseRequestParams 10 1000 Atoi []
        ([(ParamBbox, "1,2,3"), (ParamOrderBy, "name:x")])
      = .error (.invalidParameterValue ParamBbox ("1,2,3")) :=
  ((parseRequestParams_fail_fast 10 1000 Atoi []
      ([(ParamBbox, "1,2,3"), (ParamOrderBy, "name:x")])).1
      (.invalidParameterValue ParamBbox ("1,2,3"))).mpr (by decide)

end Service
